import Mathlib

/-!
Verification of the pywebscraper content-extraction and asset-rewriting
pipeline.  The definitions below are a shallow embedding of the Python
sources `pywebscraper/image.py`, `pywebscraper/scraper.py` and
`pywebscraper/utils.py`:

* pure string manipulation (`str.split`, `str.join`, `str.replace`,
  `os.path.join`) is modelled by executable functions on `List Char`
  with Python's exact semantics (split keeps empty fields, replace
  substitutes every non-overlapping occurrence left to right);
* the network (the `requests` collaborator) is an oracle `Net` passed
  explicitly; every call that touches the network or the filesystem
  also returns the list of `NetEvent`s it performed, so theorems can
  state that a request or a file write did or did not happen;
* Python exceptions are modelled with `Except String`.
-/

/-- Python `s.split(sep)` for a one-character separator: splits at every
occurrence and keeps empty fields, so the result is never `[]`. -/
def pySplit (sep : Char) : List Char → List (List Char)
  | [] => [[]]
  | c :: cs =>
    if c = sep then [] :: pySplit sep cs
    else
      match pySplit sep cs with
      | [] => [[c]]
      | g :: gs => (c :: g) :: gs

/-- Python `sep.join(xs)`. -/
def pyJoin (sep : Char) (xs : List (List Char)) : List Char :=
  List.intercalate [sep] xs

/-- Python `s.split(sep)[0]`: the text before the first occurrence of `sep`. -/
def pyFirstField (sep : Char) (s : List Char) : List Char :=
  (pySplit sep s).headD []

/-- Python `s.split(sep)[-1]`: the last field of the split. -/
def pyLastField (sep : Char) (s : List Char) : List Char :=
  ((pySplit sep s).getLast?).getD []

/-- Worker for Python `str.replace` with a non-empty pattern, written with
explicit fuel so that it is structurally recursive and evaluates inside
`decide`/`rfl`.  One unit of fuel is spent per character of input consumed. -/
def replaceGo (pat rep : List Char) : Nat → List Char → List Char
  | _, [] => []
  | 0, s => s
  | fuel + 1, c :: cs =>
    if pat ≠ [] ∧ pat.isPrefixOf (c :: cs) = true then
      rep ++ replaceGo pat rep fuel (List.drop (pat.length - 1) cs)
    else
      c :: replaceGo pat rep fuel cs

/-- Python `s.replace(pat, rep)`.  For the empty pattern Python inserts
`rep` before every character and at the end (`"ab".replace("", "-")` is
`"-a-b-"`); otherwise every non-overlapping occurrence is replaced,
scanning left to right. -/
def pyReplace (pat rep s : List Char) : List Char :=
  if pat = [] then rep ++ s.flatMap (fun c => c :: rep)
  else replaceGo pat rep s.length s

/-- Python `s.replace(pat, rep)` on `String`s, argument order as in the
method call `s.replace(pat, rep)`. -/
def pyReplaceStr (s pat rep : String) : String :=
  ⟨pyReplace pat.data rep.data s.data⟩

/-- Worker for splitting on a (non-empty) substring, with the same fuel
discipline as `replaceGo`.  `splitGo pat fuel s` is Python `s.split(pat)`. -/
def splitGo (pat : List Char) : Nat → List Char → List (List Char)
  | _, [] => [[]]
  | 0, s => [s]
  | fuel + 1, c :: cs =>
    if pat ≠ [] ∧ pat.isPrefixOf (c :: cs) = true then
      [] :: splitGo pat fuel (List.drop (pat.length - 1) cs)
    else
      match splitGo pat fuel cs with
      | [] => [[c]]
      | g :: gs => (c :: g) :: gs

/-- Python `s.split(pat)` for a non-empty substring pattern: the maximal
greedy left-to-right decomposition of `s` around occurrences of `pat`. -/
def splitOnSub (pat s : List Char) : List (List Char) :=
  splitGo pat s.length s

/-- Replace-all, specified independently of the scanning implementation:
`rep.join(s.split(pat))`, i.e. the fields of the greedy decomposition of
`s` around `pat`, re-joined with `rep`.  Only meaningful for `pat ≠ ""`. -/
def specReplaceAll (pat rep s : String) : String :=
  ⟨List.intercalate rep.data (splitOnSub pat.data s.data)⟩

/-- Python `s.startswith(pre)`, computed on the character lists so that it
reduces inside `decide` and `rfl`. -/
def strStarts (s pre : String) : Bool :=
  pre.data.isPrefixOf s.data

/-- Python `s.endswith(suf)`, computed on the character lists. -/
def strEnds (s suf : String) : Bool :=
  suf.data.isSuffixOf s.data

/-- POSIX `os.path.join` for two components, as used by the sources. -/
def ospathJoin (a b : String) : String :=
  if strStarts b "/" then b
  else if a = "" ∨ strEnds a "/" then a ++ b
  else a ++ "/" ++ b

/-- Python truthiness of an optional string: `None` and `""` are falsy. -/
def pyFalsy : Option String → Bool
  | none => true
  | some s => s == ""

/-- Whether an `Except` result is an error (a raised Python exception). -/
def isErr {ε α : Type} : Except ε α → Bool
  | .error _ => true
  | .ok _ => false

/-- The dataclass `ImageContent` from `pywebscraper/image.py`: one
discovered image reference with its URL, alt text, and the local path it
was saved to (absent until `save` succeeds). -/
structure ImageContent where
  url : String
  alt_text : String
  local_path : Option String := none
deriving DecidableEq, Repr

/-- `ImageContent.get_filename`: `self.url.split("/")[-1].split("?")[0]`. -/
def ImageContent.get_filename (img : ImageContent) : String :=
  ⟨pyFirstField '?' (pyLastField '/' img.url.data)⟩

/-- `ImageContent.get_filepath`: `"/".join(self.url.split("/")[3:]).split("?")[0]`. -/
def ImageContent.get_filepath (img : ImageContent) : String :=
  ⟨pyFirstField '?' (pyJoin '/' ((pySplit '/' img.url.data).drop 3))⟩

/-- The final path segment of a URL as the spec words it: the text after
the last `/` (the whole string when there is no `/`), truncated at the
first `?` to drop any query suffix. -/
def specFilename (url : String) : String :=
  ⟨((url.data.reverse.takeWhile (fun c => c != '/')).reverse).takeWhile (fun c => c != '?')⟩

/-- The URL path as the spec words it: the URL with its first three
`/`-delimited segments (the `scheme://host` part) removed, truncated at
the first `?` to drop any query string. -/
def specFilepath (url : String) : String :=
  ⟨(pyJoin '/' ((pySplit '/' url.data).drop 3)).takeWhile (fun c => c != '?')⟩

/-- A node of the parsed document (the tree the BeautifulSoup collaborator
hands back): an element with its tag name, the parsed multi-valued `class`
attribute, its other attributes, and its children in document order, or a
text node. -/
inductive Node where
  | elem (tag : String) (classes : List String) (attrs : List (String × String)) (children : List Node)
  | text (s : String)

/-- A parsed document is the list of top-level nodes of the soup. -/
abbrev Doc := List Node

mutual

/-- All nodes of the tree in document order (pre-order), the traversal
order used by BeautifulSoup's `find` and `find_all`. -/
def preorder : Node → List Node
  | .elem t c a ch => .elem t c a ch :: preorderList ch
  | .text s => [.text s]

/-- `preorder` over a forest, left to right. -/
def preorderList : List Node → List Node
  | [] => []
  | n :: ns => preorder n ++ preorderList ns

end

/-- Whether a node is an element with the given tag name. -/
def isTag (t : String) : Node → Bool
  | .elem tg _ _ _ => tg == t
  | .text _ => false

/-- Whether a node is an element whose `class` attribute contains the
given class token (BeautifulSoup matches a class filter against each CSS
class of the tag separately). -/
def hasClassToken (c : String) : Node → Bool
  | .elem _ classes _ _ => classes.contains c
  | .text _ => false

/-- `tag.get(key)`: the value of an attribute, absent when missing. -/
def getAttr (n : Node) (key : String) : Option String :=
  match n with
  | .elem _ _ attrs _ => (attrs.find? (fun p => p.fst == key)).map (fun p => p.snd)
  | .text _ => none

/-- `soup.find(pred)`: the first node of the document, in document order,
satisfying the predicate. -/
def soupFind (doc : Doc) (p : Node → Bool) : Option Node :=
  (preorderList doc).find? p

/-- `soup.find("article")`. -/
def find_article (doc : Doc) : Option Node :=
  soupFind doc (isTag "article")

/-- `soup.find("div", {"class": "content"})`: the first `div` element
whose class attribute contains the token `content`. -/
def find_div_content (doc : Doc) : Option Node :=
  soupFind doc (fun n => isTag "div" n && hasClassToken "content" n)

/-- `soup.body`: the first `body` element of the document, if any. -/
def soup_body (doc : Doc) : Option Node :=
  soupFind doc (isTag "body")

/-- `PyWebScraper.extract_content`: the Python
`self._soup.find("article") or self._soup.find("div", {"class": "content"}) or self._soup.body`
followed by `content if content else self._soup.body`.  A found `Tag` is
always truthy in bs4 (`Tag.__bool__` returns `True`), so Python's `or` on
the find results is `Option.orElse`. -/
def extract_content (doc : Doc) : Option Node :=
  let content := (find_article doc).orElse
    (fun _ => (find_div_content doc).orElse (fun _ => soup_body doc))
  match content with
  | some c => some c
  | none => soup_body doc

/-- `soup.find_all(t)`: every element with the given tag, in document order. -/
def find_all (doc : Doc) (t : String) : List Node :=
  (preorderList doc).filter (isTag t)

/-- `PyWebScraper.extract_images`: loop over `find_all("img")`, read
`img.get("src")` and `img.get("alt", "Image")`, and append the pair
`(alt_text, img_url)` when `if img_url:` holds (Python truthiness: a
missing `src` and an empty `src` are both falsy). -/
def extract_images (doc : Doc) : List (String × String) :=
  (find_all doc "img").foldl
    (fun images img =>
      match getAttr img "src" with
      | none => images
      | some u =>
        if u = "" then images
        else images ++ [((getAttr img "alt").getD "Image", u)])
    []

/-- The network and filesystem effects a run performs, in order.
`headReq` is the reachability probe of `validate_url`, `pageReq` the HTML
page fetch, `imageReq` an image download, `fileOpen` the
`open(full_path, "wb")` call (which creates or truncates the file), and
`fileWriteOk` a completed write of downloaded bytes. -/
inductive NetEvent where
  | headReq (url : String)
  | pageReq (url : String)
  | imageReq (url : String)
  | fileOpen (path : String)
  | fileWriteOk (path : String)
deriving DecidableEq, Repr

/-- The external transport collaborator (`requests`) and the parser that
consumes the fetched page: `headOk` is whether `requests.head` succeeds
with a success status, `getPage` the fetched-and-parsed page (absent on a
transport error), `getImage` the bytes of an image download (absent when
the download fails). -/
structure Net where
  headOk : String → Bool
  getPage : String → Option Doc
  getImage : String → Option (List Nat)

/-- `validate_url` from `pywebscraper/utils.py`: raise on an empty URL,
then on a URL that starts with neither `http://` nor `https://`, then
probe the URL with `requests.head` and raise when that fails or returns a
non-success status. -/
def validate_url (url : String) (net : Net) : Except String Unit × List NetEvent :=
  if url = "" then
    (.error "URL cannot be empty.", [])
  else if !(strStarts url "http://") && !(strStarts url "https://") then
    (.error "Invalid URL. It must start with http or https.", [])
  else if net.headOk url then
    (.ok (), [.headReq url])
  else
    (.error "The URL is unreachable", [.headReq url])

/-- The scraper state after `PyWebScraper.__init__`: the validated URL and
the parsed soup (`None` when `_fetch_html` failed). -/
structure PyWebScraper where
  url : String
  soup : Option Doc

/-- `PyWebScraper.__init__`: validate the URL, then fetch the page and
parse it.  The fetch happens only when validation passed. -/
def scraperInit (url : String) (net : Net) : Except String PyWebScraper × List NetEvent :=
  match validate_url url net with
  | (.error e, evs) => (.error e, evs)
  | (.ok _, evs) => (.ok ⟨url, net.getPage url⟩, evs ++ [.pageReq url])

/-- Construction of an `ImageContent`: the dataclass `__post_init__` runs
`validate_url(self.url)`, so building the object itself performs the full
validation including the reachability probe. -/
def mkImageContent (url alt_text : String) (net : Net) : Except String ImageContent × List NetEvent :=
  match validate_url url net with
  | (.error e, evs) => (.error e, evs)
  | (.ok _, evs) => (.ok ⟨url, alt_text, none⟩, evs)

/-- The list comprehension in `PyWebScraper.get_images`:
`[ImageContent(url, alt_text) for alt_text, url in self.extract_images()]`.
Pairs are consumed left to right; the first constructor that raises aborts
the whole comprehension. -/
def buildImages (pairs : List (String × String)) (net : Net) :
    Except String (List ImageContent) × List NetEvent :=
  match pairs with
  | [] => (.ok [], [])
  | (alt_text, url) :: rest =>
    match mkImageContent url alt_text net with
    | (.error e, evs) => (.error e, evs)
    | (.ok img, evs) =>
      let (r, evs2) := buildImages rest net
      (r.map (fun l => img :: l), evs ++ evs2)

/-- `PyWebScraper.get_images` on a fresh scraper (no cached image list):
build one `ImageContent` per discovered `(alt_text, url)` pair. -/
def get_images (doc : Doc) (net : Net) : Except String (List ImageContent) × List NetEvent :=
  buildImages (extract_images doc) net

/-- `ImageContent.save`: compute the target path from `get_filepath` (or
`get_filename` when subdirectories are off), join it under `path`,
download the bytes, open the target file for writing (creating or
truncating it), and write.  `self._download()` returns `None` on a
transport failure, and `f.write(None)` then raises `TypeError`; only a
successful write sets `local_path`. -/
def ImageContent.save (img : ImageContent) (path : String) (use_subdirectories : Bool)
    (net : Net) : Except String (ImageContent × String) × List NetEvent :=
  let filename := if use_subdirectories then img.get_filepath else img.get_filename
  let full_path := ospathJoin path filename
  match net.getImage img.url with
  | none =>
    (.error "TypeError: a bytes-like object is required, not NoneType",
     [.imageReq img.url, .fileOpen full_path])
  | some _ =>
    (.ok ({ img with local_path := some full_path }, full_path),
     [.imageReq img.url, .fileOpen full_path, .fileWriteOk full_path])

/-- The per-image loop of `PyWebScraper._process_images`: for each image,
`if not image.local_path: image.save(...)`, then
`content = content.replace(image.url, image.local_path.replace(path, ""))`.
A raised exception aborts the remaining iterations.  Returns the rewritten
content together with the (possibly updated) image list. -/
def processLoop (images : List ImageContent) (content : String)
    (save_path path : String) (flatten_images : Bool) (net : Net) :
    Except String (String × List ImageContent) × List NetEvent :=
  match images with
  | [] => (.ok (content, []), [])
  | img :: rest =>
    let (r, evs) :=
      if pyFalsy img.local_path then
        match img.save save_path (!flatten_images) net with
        | (.error e, evs) => (Except.error e, evs)
        | (.ok (img', _), evs) => (Except.ok img', evs)
      else (Except.ok img, [])
    match r with
    | .error e => (.error e, evs)
    | .ok img' =>
      match img'.local_path with
      | none => (.error "AttributeError: NoneType object has no attribute replace", evs)
      | some p =>
        let content' := pyReplaceStr content img.url (pyReplaceStr p path "")
        let (r2, evs2) := processLoop rest content' save_path path flatten_images net
        (r2.map (fun cl => (cl.fst, img' :: cl.snd)), evs ++ evs2)

/-- `PyWebScraper._process_images`: save every not-yet-saved image under
`os.path.join(path, images_dir_name)` and substitute local paths into the
content.  `images` is the scraper's cached image list. -/
def process_images (content : String) (images : List ImageContent)
    (path images_dir_name : String) (flatten_images : Bool) (net : Net) :
    Except String (String × List ImageContent) × List NetEvent :=
  processLoop images content (ospathJoin path images_dir_name) path flatten_images net

/-- The tag name of a node (empty for text nodes), used as an observable
to tell two selected nodes apart. -/
def tagOf : Node → String
  | .elem t _ _ _ => t
  | .text _ => ""

/-- Content-region selection exactly as the claim words it: first article
element, else the first element of ANY tag whose class attribute contains
the class token `content`, else the body. -/
def claimSelect (doc : Doc) : Option Node :=
  match soupFind doc (isTag "article") with
  | some a => some a
  | none =>
    match soupFind doc (hasClassToken "content") with
    | some d => some d
    | none => soup_body doc

/-- Content-region selection with the class rule restricted to `div`
elements, the restriction the code actually applies. -/
def specSelect (doc : Doc) : Option Node :=
  match soupFind doc (isTag "article") with
  | some a => some a
  | none =>
    match soupFind doc (fun n => isTag "div" n && hasClassToken "content" n) with
    | some d => some d
    | none => soup_body doc

/-- Image-reference extraction exactly as the claim words it: one entry
per `img` element of the whole document in document order, alt text
defaulting to `"Image"` when the alt attribute is absent, skipping only
elements whose source-URL attribute is absent. -/
def claimImages (doc : Doc) : List (String × String) :=
  (preorderList doc).filterMap (fun n =>
    if isTag "img" n then
      (getAttr n "src").map (fun u => ((getAttr n "alt").getD "Image", u))
    else none)

/-- Image-reference extraction with the skip rule the code applies: an
`img` element is skipped when its source-URL attribute is absent or the
empty string. -/
def specImages (doc : Doc) : List (String × String) :=
  (preorderList doc).filterMap (fun n =>
    if isTag "img" n then
      match getAttr n "src" with
      | none => none
      | some u => if u = "" then none else some ((getAttr n "alt").getD "Image", u)
    else none)

/-- Stripping the base output directory from the FRONT of a local path, as
the claim words it: remove `path` only when it is the leading portion of
the string, leaving any later occurrence of it intact. -/
def stripDirFront (p path : String) : String :=
  if strStarts p path then ⟨p.data.drop path.data.length⟩ else p

/-- The asset-rewrite step exactly as the claim words it: for each asset
replace every occurrence of its remote URL in the content with its local
path with the base directory stripped from the front. -/
def claimRewrite (content : String) (images : List ImageContent) (path : String) : String :=
  images.foldl
    (fun c img => specReplaceAll img.url (stripDirFront (img.local_path.getD "") path) c)
    content

/-- A network oracle on which every probe succeeds and every download
fails; page fetches return no document. -/
def netAllOk : Net :=
  ⟨fun _ => true, fun _ => none, fun _ => none⟩

/-- A network oracle on which the download of `https://a.com/x/i1.png`
fails while the download of `https://a.com/x/i2.png` succeeds. -/
def netFirstFails : Net :=
  ⟨fun _ => true, fun _ => none,
   fun u => if u = "https://a.com/x/i2.png" then some [1] else none⟩

/-- A document with no article element, no content-class element and no
body element. -/
def doc_c2 : Doc := [Node.elem "p" [] [] [Node.text "x"]]

/-- A document whose only content-class element is a `span`, inside a
`body`. -/
def doc_c4 : Doc :=
  [Node.elem "body" [] [] [Node.elem "span" ["content"] [] [Node.text "hi"]]]

/-- A document with a single `img` element whose `src` attribute is
present but empty. -/
def doc_c9 : Doc := [Node.elem "img" [] [("src", ""), ("alt", "a")] []]

/-- A document with a single `img` element whose `src` is not an
http(s) URL. -/
def doc_c10 : Doc :=
  [Node.elem "body" [] [] [Node.elem "img" [] [("src", "ftp://x/y.png")] []]]

/-- A not-yet-saved image whose download will fail on `netFirstFails`. -/
def img_c1a : ImageContent := ⟨"https://a.com/x/i1.png", "A", none⟩

/-- A not-yet-saved image whose download would succeed on `netFirstFails`. -/
def img_c1b : ImageContent := ⟨"https://a.com/x/i2.png", "B", none⟩

/-- An already-saved image whose URL path starts with the literal string
`output`, so its saved local path contains `output` twice. -/
def img_c3 : ImageContent :=
  ⟨"https://x.com/output/b.png", "A", some "output/images/output/b.png"⟩

/-- An already-saved image asset. -/
def imgSaved : ImageContent := ⟨"https://a.com/i.png", "A", some "output/images/i.png"⟩

lemma takeWhile_append_neg {α : Type} (p : α → Bool) (e : α) (he : p e = false) :
    ∀ xs : List α, ((xs ++ [e]).takeWhile p) = xs.takeWhile p := by
  intro xs
  induction xs with
  | nil => simp [List.takeWhile, he]
  | cons x xs ih =>
    by_cases hx : p x
    · simp [List.takeWhile, hx, ih]
    · simp at hx
      simp [List.takeWhile, hx]

lemma takeWhile_append_pos {α : Type} (p : α → Bool) (e : α) (he : p e = true) :
    ∀ xs : List α,
      ((xs ++ [e]).takeWhile p) = if xs.all p then xs ++ [e] else xs.takeWhile p := by
  intro xs
  induction xs with
  | nil => simp [List.takeWhile, he]
  | cons x xs ih =>
    by_cases hx : p x
    · have hl : List.takeWhile p ((x :: xs) ++ [e]) = x :: List.takeWhile p (xs ++ [e]) := by
        simp [List.takeWhile, hx]
      rw [hl, ih]
      by_cases ha : xs.all p
      · simp [List.all_cons, hx, ha, List.takeWhile]
      · have ha2 : xs.all p = false := by simpa using ha
        simp [List.all_cons, hx, ha2, List.takeWhile]
    · have hx2 : p x = false := by simpa using hx
      simp [List.takeWhile, hx2, List.all_cons]

lemma getLast?_cons_of_ne_nil {α : Type} (a : α) :
    ∀ l : List α, l ≠ [] → (a :: l).getLast? = l.getLast? := by
  intro l h
  cases l with
  | nil => exact absurd rfl h
  | cons b t => simp

lemma pySplit_ne_nil (sep : Char) : ∀ s : List Char, pySplit sep s ≠ [] := by
  intro s
  cases s with
  | nil => simp [pySplit]
  | cons c cs =>
    by_cases hc : c = sep
    · simp [pySplit, hc]
    · simp only [pySplit, if_neg hc]
      rcases h : pySplit sep cs with _ | ⟨g, gs⟩ <;> simp

lemma pySplit_of_not_mem (sep : Char) :
    ∀ s : List Char, sep ∉ s → pySplit sep s = [s] := by
  intro s
  induction s with
  | nil => intro _; rfl
  | cons c cs ih =>
    intro h
    have hc : ¬ c = sep := fun hcc => h (hcc ▸ List.mem_cons_self c cs)
    have hcs : sep ∉ cs := fun hm => h (List.mem_cons_of_mem c hm)
    simp only [pySplit, if_neg hc, ih hcs]

lemma pySplit_of_mem (sep : Char) :
    ∀ s : List Char, sep ∈ s → ∃ g gs, pySplit sep s = g :: gs ∧ gs ≠ [] := by
  intro s
  induction s with
  | nil => intro h; simp at h
  | cons c cs ih =>
    intro h
    by_cases hc : c = sep
    · exact ⟨[], pySplit sep cs, by simp [pySplit, hc], pySplit_ne_nil sep cs⟩
    · have hcs : sep ∈ cs := by
        rcases List.mem_cons.mp h with h1 | h2
        · exact absurd h1.symm hc
        · exact h2
      rcases ih hcs with ⟨g, gs, hsplit, hgs⟩
      refine ⟨c :: g, gs, ?_, hgs⟩
      simp only [pySplit, if_neg hc, hsplit]

lemma pyFirstField_eq (sep : Char) :
    ∀ s : List Char, pyFirstField sep s = s.takeWhile (fun c => c != sep) := by
  intro s
  induction s with
  | nil => rfl
  | cons c cs ih =>
    by_cases hc : c = sep
    · simp [pyFirstField, pySplit, hc, List.takeWhile]
    · have hq : (c != sep) = true := by simp [bne]; exact hc
      rcases h : pySplit sep cs with _ | ⟨g, gs⟩
      · exact absurd h (pySplit_ne_nil sep cs)
      · have hg : g = cs.takeWhile (fun c => c != sep) := by
          have hfirst : pyFirstField sep cs = g := by simp [pyFirstField, h]
          rw [← hfirst, ih]
        simp only [pyFirstField, pySplit, if_neg hc, h, List.headD_cons, List.takeWhile, hq, hg]

lemma pyLastField_eq (sep : Char) :
    ∀ s : List Char,
      pyLastField sep s = (s.reverse.takeWhile (fun c => c != sep)).reverse := by
  intro s
  induction s with
  | nil => rfl
  | cons c cs ih =>
    by_cases hc : c = sep
    · subst hc
      have lhs : pyLastField c (c :: cs) = pyLastField c cs := by
        unfold pyLastField
        rw [show pySplit c (c :: cs) = [] :: pySplit c cs by simp [pySplit]]
        rw [getLast?_cons_of_ne_nil [] _ (pySplit_ne_nil c cs)]
      have hq : ((c != c) : Bool) = false := by simp
      rw [lhs, ih, List.reverse_cons, takeWhile_append_neg (fun x => x != c) c hq]
    · have hq : (c != sep) = true := by simp [bne]; exact hc
      by_cases hm : sep ∈ cs
      · rcases pySplit_of_mem sep cs hm with ⟨g, gs, hsplit, hgs⟩
        have lhs : pyLastField sep (c :: cs) = pyLastField sep cs := by
          unfold pyLastField
          rw [show pySplit sep (c :: cs) = (c :: g) :: gs by
                simp only [pySplit, if_neg hc, hsplit]]
          rw [hsplit, getLast?_cons_of_ne_nil _ _ hgs, getLast?_cons_of_ne_nil _ _ hgs]
        have hall : cs.reverse.all (fun x => x != sep) = false := by
          rcases Bool.eq_false_or_eq_true (cs.reverse.all (fun x => x != sep)) with hb | hb
          · exfalso
            have := List.all_eq_true.mp hb sep (List.mem_reverse.mpr hm)
            simp at this
          · exact hb
        rw [lhs, ih, List.reverse_cons, takeWhile_append_pos (fun x => x != sep) c hq, hall]
        simp
      · have hset : pySplit sep cs = [cs] := pySplit_of_not_mem sep cs hm
        have lhs : pyLastField sep (c :: cs) = c :: cs := by
          unfold pyLastField
          rw [show pySplit sep (c :: cs) = [c :: cs] by simp only [pySplit, if_neg hc, hset]]
          rfl
        have hall : cs.reverse.all (fun x => x != sep) = true := by
          apply List.all_eq_true.mpr
          intro x hx
          have hxcs : x ∈ cs := List.mem_reverse.mp hx
          have hxs : x ≠ sep := fun he => hm (he ▸ hxcs)
          simpa [bne] using hxs
        rw [lhs, List.reverse_cons, takeWhile_append_pos (fun x => x != sep) c hq, hall]
        simp

lemma intercalate_singleton {α : Type} (sep a : List α) : List.intercalate sep [a] = a := by
  simp [List.intercalate]

lemma intercalate_cons_cons {α : Type} (sep a b : List α) (t : List (List α)) :
    List.intercalate sep (a :: b :: t) = a ++ sep ++ List.intercalate sep (b :: t) := by
  simp [List.intercalate, List.intersperse, List.append_assoc]

lemma splitGo_ne_nil (pat : List Char) : ∀ fuel s, splitGo pat fuel s ≠ [] := by
  intro fuel
  induction fuel with
  | zero => intro s; cases s <;> simp [splitGo]
  | succ fuel ih =>
    intro s
    cases s with
    | nil => simp [splitGo]
    | cons c cs =>
      by_cases h : pat ≠ [] ∧ pat.isPrefixOf (c :: cs) = true
      · simp [splitGo, h]
      · simp only [splitGo, h, if_false]
        rcases hg : splitGo pat fuel cs with _ | ⟨g, gs⟩ <;> simp

lemma replaceGo_eq_intercalate (pat rep : List Char) :
    ∀ fuel s, s.length ≤ fuel →
      replaceGo pat rep fuel s = List.intercalate rep (splitGo pat fuel s) := by
  intro fuel
  induction fuel with
  | zero =>
    intro s hs
    have hnil : s = [] := List.length_eq_zero.mp (Nat.le_zero.mp hs)
    subst hnil
    simp [replaceGo, splitGo, intercalate_singleton]
  | succ fuel ih =>
    intro s hs
    cases s with
    | nil => simp [replaceGo, splitGo, intercalate_singleton]
    | cons c cs =>
      have hcs : cs.length ≤ fuel := by
        have := hs
        simp only [List.length_cons] at this
        omega
      by_cases h : pat ≠ [] ∧ pat.isPrefixOf (c :: cs) = true
      · have hr : replaceGo pat rep (fuel + 1) (c :: cs)
            = rep ++ replaceGo pat rep fuel (List.drop (pat.length - 1) cs) := by
          simp only [replaceGo]
          rw [if_pos h]
        have hsu : splitGo pat (fuel + 1) (c :: cs)
            = [] :: splitGo pat fuel (List.drop (pat.length - 1) cs) := by
          simp only [splitGo]
          rw [if_pos h]
        have hlen : (List.drop (pat.length - 1) cs).length ≤ fuel := by
          have h1 : (List.drop (pat.length - 1) cs).length ≤ cs.length := by
            rw [List.length_drop]
            exact Nat.sub_le _ _
          exact Nat.le_trans h1 hcs
        rw [hr, hsu, ih _ hlen]
        rcases hne : splitGo pat fuel (List.drop (pat.length - 1) cs) with _ | ⟨g, gs⟩
        · exact absurd hne (splitGo_ne_nil pat fuel _)
        · rw [intercalate_cons_cons]
          simp
      · have hr : replaceGo pat rep (fuel + 1) (c :: cs)
            = c :: replaceGo pat rep fuel cs := by
          simp only [replaceGo]
          rw [if_neg h]
        rw [hr, ih cs hcs]
        rcases hne : splitGo pat fuel cs with _ | ⟨g, gs⟩
        · exact absurd hne (splitGo_ne_nil pat fuel cs)
        · have hsu : splitGo pat (fuel + 1) (c :: cs) = (c :: g) :: gs := by
            simp only [splitGo]
            rw [if_neg h, hne]
          rw [hsu]
          cases gs with
          | nil => rw [intercalate_singleton, intercalate_singleton]
          | cons b t =>
            rw [intercalate_cons_cons, intercalate_cons_cons]
            simp

lemma pyReplace_eq_intercalate (pat rep s : List Char) (hp : pat ≠ []) :
    pyReplace pat rep s = List.intercalate rep (splitOnSub pat s) := by
  unfold pyReplace splitOnSub
  rw [if_neg hp]
  exact replaceGo_eq_intercalate pat rep s.length s (Nat.le_refl _)

lemma string_data_ne_nil {s : String} (h : s ≠ "") : s.data ≠ [] := by
  intro hd
  apply h
  cases s with
  | mk d => cases hd; rfl

lemma pyReplaceStr_eq_spec (s pat rep : String) (hp : pat ≠ "") :
    pyReplaceStr s pat rep = specReplaceAll pat rep s := by
  unfold pyReplaceStr specReplaceAll
  exact congrArg String.mk (pyReplace_eq_intercalate pat.data rep.data s.data (string_data_ne_nil hp))

lemma processLoop_all_saved (save_path path : String) (flatten_images : Bool) (net : Net) :
    ∀ (images : List ImageContent) (content : String),
      (∀ img ∈ images, pyFalsy img.local_path = false) →
      processLoop images content save_path path flatten_images net
        = (.ok (images.foldl
            (fun c img => pyReplaceStr c img.url (pyReplaceStr (img.local_path.getD "") path ""))
            content, images), []) := by
  intro images
  induction images with
  | nil => intro content _; rfl
  | cons img rest ih =>
    intro content h
    have himg : pyFalsy img.local_path = false := h img (List.mem_cons_self img rest)
    have hrest : ∀ i ∈ rest, pyFalsy i.local_path = false :=
      fun i hi => h i (List.mem_cons_of_mem img hi)
    rcases hlp : img.local_path with _ | p
    · rw [hlp] at himg
      simp [pyFalsy] at himg
    · rw [hlp] at himg
      simp only [processLoop, hlp, himg, Bool.false_eq_true, if_false]
      rw [ih _ hrest]
      simp [List.foldl_cons, hlp, Except.map]

lemma validate_url_err_iff (url : String) (net : Net) :
    isErr (validate_url url net).fst = true
      ↔ (url = ""
          ∨ (strStarts url "http://" = false ∧ strStarts url "https://" = false)
          ∨ net.headOk url = false) := by
  by_cases h1 : url = ""
  · simp [validate_url, isErr, h1]
  · cases h2 : strStarts url "http://" <;> cases h3 : strStarts url "https://" <;>
      cases h4 : net.headOk url <;>
      simp [validate_url, isErr, h1, h2, h3, h4]

lemma validate_url_events (url : String) (net : Net) :
    ∀ ev ∈ (validate_url url net).snd, ev = NetEvent.headReq url := by
  by_cases h1 : url = ""
  · simp [validate_url, h1]
  · cases h2 : strStarts url "http://" <;> cases h3 : strStarts url "https://" <;>
      cases h4 : net.headOk url <;>
      simp [validate_url, h1, h2, h3, h4]

lemma buildImages_err (net : Net) :
    ∀ pairs : List (String × String),
      (∃ pr ∈ pairs,
          pr.2 = ""
            ∨ (strStarts pr.2 "http://" = false ∧ strStarts pr.2 "https://" = false)
            ∨ net.headOk pr.2 = false) →
      isErr (buildImages pairs net).fst = true := by
  intro pairs
  induction pairs with
  | nil => rintro ⟨pr, hmem, _⟩; simp at hmem
  | cons hd tl ih =>
    rintro ⟨pr, hmem, hbad⟩
    rcases hd with ⟨alt_text, url⟩
    rcases hv : validate_url url net with ⟨r, evs⟩
    cases r with
    | error e => simp [buildImages, mkImageContent, hv, isErr]
    | ok _ =>
      have hok : isErr (validate_url url net).fst = false := by rw [hv]; rfl
      rcases List.mem_cons.mp hmem with hpr | hpr
      · exfalso
        subst hpr
        have := (validate_url_err_iff url net).mpr hbad
        rw [hok] at this
        exact Bool.false_ne_true this
      · have htl : isErr (buildImages tl net).fst = true := ih ⟨pr, hpr, hbad⟩
        rcases hb : buildImages tl net with ⟨rt, evt⟩
        cases rt with
        | error e2 => simp [buildImages, mkImageContent, hv, hb, isErr, Except.map]
        | ok l =>
          rw [hb] at htl
          simp [isErr] at htl

lemma buildImages_events (net : Net) :
    ∀ (pairs : List (String × String)) (ev : NetEvent),
      ev ∈ (buildImages pairs net).snd → ∃ u, ev = NetEvent.headReq u := by
  intro pairs
  induction pairs with
  | nil => intro ev h; simp [buildImages] at h
  | cons hd tl ih =>
    intro ev h
    rcases hd with ⟨alt_text, url⟩
    rcases hv : validate_url url net with ⟨r, evs⟩
    have hevs : ∀ e ∈ evs, e = NetEvent.headReq url := by
      intro e he
      have := validate_url_events url net e
      rw [hv] at this
      exact this he
    cases r with
    | error e =>
      rw [show (buildImages ((alt_text, url) :: tl) net).snd = evs by
            simp [buildImages, mkImageContent, hv]] at h
      exact ⟨url, hevs ev h⟩
    | ok _ =>
      rw [show (buildImages ((alt_text, url) :: tl) net).snd
            = evs ++ (buildImages tl net).snd by
            simp [buildImages, mkImageContent, hv]] at h
      rcases List.mem_append.mp h with h1 | h2
      · exact ⟨url, hevs ev h1⟩
      · exact ih ev h2

lemma foldl_append_filterMap :
    ∀ (l : List Node) (acc : List (String × String)),
      l.foldl (fun images img =>
        match getAttr img "src" with
        | none => images
        | some u =>
          if u = "" then images
          else images ++ [((getAttr img "alt").getD "Image", u)]) acc
      = acc ++ l.filterMap (fun img =>
          match getAttr img "src" with
          | none => none
          | some u =>
            if u = "" then none
            else some ((getAttr img "alt").getD "Image", u)) := by
  intro l
  induction l with
  | nil => intro acc; simp
  | cons n ns ih =>
    intro acc
    rcases hs : getAttr n "src" with _ | u
    · simp only [List.foldl_cons, List.filterMap_cons, hs]
      rw [ih]
    · by_cases hu : u = ""
      · simp only [List.foldl_cons, List.filterMap_cons, hs, hu, if_pos rfl]
        rw [ih]
        simp
      · simp only [List.foldl_cons, List.filterMap_cons, hs, if_neg hu]
        rw [ih]
        simp

lemma filterMap_filter_if {β : Type} (p : Node → Bool) (g : Node → Option β) :
    ∀ l : List Node,
      (l.filter p).filterMap g = l.filterMap (fun n => if p n then g n else none) := by
  intro l
  induction l with
  | nil => rfl
  | cons n ns ih =>
    by_cases hp : p n
    · rcases hg : g n with _ | b <;>
        simp [List.filter_cons, hp, List.filterMap_cons, hg, ih]
    · have hp2 : p n = false := by simpa using hp
      simp [List.filter_cons, hp2, List.filterMap_cons, ih]

/-- C5: for every URL string, `get_filename` returns the final path
segment — the text after the last `/`, the whole string when there is no
`/` — with any `?...` query suffix removed, regardless of how many
`/`-delimited segments precede it and of the query string's contents. -/
theorem get_filename_spec (img : ImageContent) : img.get_filename = specFilename img.url := by
  unfold ImageContent.get_filename specFilename
  exact congrArg String.mk (by rw [pyLastField_eq, pyFirstField_eq])

/-- C6: for every URL string, `get_filepath` returns the URL with its
first three `/`-delimited segments (the `scheme://host` part of a
`scheme://host/...` URL) removed and any query string removed; in
particular `https://example.com/a/b/image.jpg?x=1` yields
`a/b/image.jpg`. -/
theorem get_filepath_spec :
    (∀ img : ImageContent, img.get_filepath = specFilepath img.url)
      ∧ (ImageContent.mk "https://example.com/a/b/image.jpg?x=1" "a" none).get_filepath
          = "a/b/image.jpg" := by
  constructor
  · intro img
    unfold ImageContent.get_filepath specFilepath
    exact congrArg String.mk (pyFirstField_eq '?' _)
  · decide

/-- C7: `validate_url` raises in exactly three cases — the URL is empty,
it starts with neither `http://` nor `https://`, or the HEAD reachability
probe fails — and for an invalid URL `PyWebScraper.__init__` raises that
error without attempting any HTML page fetch. -/
theorem validate_url_exactly_three_cases (url : String) (net : Net) :
    (isErr (validate_url url net).fst = true
      ↔ (url = ""
          ∨ (strStarts url "http://" = false ∧ strStarts url "https://" = false)
          ∨ net.headOk url = false))
    ∧ ((url = ""
          ∨ (strStarts url "http://" = false ∧ strStarts url "https://" = false)
          ∨ net.headOk url = false) →
        isErr (scraperInit url net).fst = true
          ∧ ∀ u, NetEvent.pageReq u ∉ (scraperInit url net).snd) := by
  refine ⟨validate_url_err_iff url net, fun hbad => ?_⟩
  have herr : isErr (validate_url url net).fst = true := (validate_url_err_iff url net).mpr hbad
  rcases hv : validate_url url net with ⟨r, evs⟩
  cases r with
  | ok _ =>
    rw [hv] at herr
    simp [isErr] at herr
  | error e =>
    constructor
    · simp [scraperInit, hv, isErr]
    · intro u hu
      rw [show (scraperInit url net).snd = evs by simp [scraperInit, hv]] at hu
      have := validate_url_events url net (NetEvent.pageReq u)
      rw [hv] at this
      exact absurd (this hu) (by simp)

/-- Witness for C7 at the concrete URL `ftp://example.com`: the scraper
constructor raises and never fetches a page. -/
theorem validate_url_exactly_three_cases_witness :
    isErr (scraperInit "ftp://example.com" netAllOk).fst = true
      ∧ ∀ u, NetEvent.pageReq u ∉ (scraperInit "ftp://example.com" netAllOk).snd :=
  (validate_url_exactly_three_cases "ftp://example.com" netAllOk).2
    (Or.inr (Or.inl (by decide)))

/-- C10: constructing an `ImageContent` runs the full URL validation
(`__post_init__` calls `validate_url`), raising exactly for an empty,
non-http(s), or unreachable URL; therefore `get_images` aborts as a whole
when any discovered image URL fails validation, and it never attempts an
image download. -/
theorem image_asset_validates_on_construction :
    (∀ (url alt_text : String) (net : Net),
      isErr (mkImageContent url alt_text net).fst = true
        ↔ (url = ""
            ∨ (strStarts url "http://" = false ∧ strStarts url "https://" = false)
            ∨ net.headOk url = false))
    ∧ (∀ (doc : Doc) (net : Net),
        (∃ pr ∈ extract_images doc,
            pr.2 = ""
              ∨ (strStarts pr.2 "http://" = false ∧ strStarts pr.2 "https://" = false)
              ∨ net.headOk pr.2 = false) →
        isErr (get_images doc net).fst = true)
    ∧ (∀ (doc : Doc) (net : Net) (u : String),
        NetEvent.imageReq u ∉ (get_images doc net).snd) := by
  refine ⟨fun url alt_text net => ?_, fun doc net h => ?_, fun doc net u hmem => ?_⟩
  · rcases hv : validate_url url net with ⟨r, evs⟩
    have base := validate_url_err_iff url net
    rw [hv] at base
    cases r with
    | error e => simpa [mkImageContent, hv, isErr] using base
    | ok _ => simpa [mkImageContent, hv, isErr] using base
  · exact buildImages_err net (extract_images doc) h
  · rcases buildImages_events net (extract_images doc) (NetEvent.imageReq u) hmem with ⟨v, hv⟩
    exact NetEvent.noConfusion hv

/-- Witness for C10 at a concrete document containing an `img` with the
non-http URL `ftp://x/y.png`: `get_images` raises and performs no image
download. -/
theorem image_asset_validates_on_construction_witness :
    isErr (get_images doc_c10 netAllOk).fst = true
      ∧ ∀ u, NetEvent.imageReq u ∉ (get_images doc_c10 netAllOk).snd :=
  ⟨image_asset_validates_on_construction.2.1 doc_c10 netAllOk
      ⟨("Image", "ftp://x/y.png"), by decide, Or.inr (Or.inl (by decide))⟩,
   fun u => image_asset_validates_on_construction.2.2 doc_c10 netAllOk u⟩

/-- C2 counterexample: on a document with no article element, no
content-class element and no body, `extract_content` returns an absent
region (`none`); nothing is raised — there is no `NoContentError`
anywhere in the code. -/
theorem extract_content_no_error_cex :
    find_article doc_c2 = none ∧ find_div_content doc_c2 = none
      ∧ soup_body doc_c2 = none ∧ extract_content doc_c2 = none :=
  ⟨rfl, rfl, rfl, rfl⟩

/-- C2 amended: for every parsed document with no article element, no
div-with-content-class element and no body-equivalent node,
`extract_content` returns an absent region (`None`) rather than raising
an error. -/
theorem extract_content_none_when_no_region (doc : Doc)
    (h1 : find_article doc = none) (h2 : find_div_content doc = none)
    (h3 : soup_body doc = none) : extract_content doc = none := by
  simp [extract_content, h1, h2, h3, Option.orElse]

/-- Witness for the amended C2 at the concrete fixture document. -/
theorem extract_content_none_when_no_region_witness : extract_content doc_c2 = none :=
  extract_content_none_when_no_region doc_c2 rfl rfl rfl

/-- C4 counterexample: on a document whose only content-class element is
a `span`, the code selects the body (its class rule only matches `div`
elements), while the claim's rule — any element with the class token
`content` — selects the span. -/
theorem extract_content_div_restricted_cex :
    (extract_content doc_c4).map tagOf = some "body"
      ∧ (claimSelect doc_c4).map tagOf = some "span"
      ∧ extract_content doc_c4 ≠ claimSelect doc_c4 := by
  refine ⟨rfl, rfl, fun h => ?_⟩
  have h2 := congrArg (Option.map tagOf) h
  rw [show (extract_content doc_c4).map tagOf = some "body" from rfl] at h2
  rw [show (claimSelect doc_c4).map tagOf = some "span" from rfl] at h2
  exact absurd (Option.some.inj h2) (by decide)

/-- C4 amended: content-region selection is deterministic with the fixed
priority, first match in document order winning: (1) the first article
element, (2) else the first DIV element whose class attribute contains
the class token `content`, (3) else the document's body element. -/
theorem extract_content_priority (doc : Doc) : extract_content doc = specSelect doc := by
  unfold extract_content specSelect find_article find_div_content
  rcases ha : soupFind doc (isTag "article") with _ | a
  · rcases hd : soupFind doc (fun n => isTag "div" n && hasClassToken "content" n) with _ | d
    · rcases hb : soup_body doc with _ | b <;> simp [ha, hd, hb, Option.orElse]
    · simp [ha, hd, Option.orElse]
  · simp [ha, Option.orElse]

/-- C9 counterexample: an `img` element whose `src` attribute is present
but empty is skipped by the code (Python truthiness), while the claim —
skip only elements lacking the attribute — keeps it. -/
theorem extract_images_empty_src_cex :
    extract_images doc_c9 = [] ∧ claimImages doc_c9 = [("a", "")]
      ∧ ([] : List (String × String)) ≠ [("a", "")] := by
  refine ⟨rfl, rfl, by decide⟩

/-- C9 amended: image-reference extraction scans the entire document and
returns one `(altText, url)` pair per `img` element in document order,
with alt text defaulting to `"Image"` when the alt attribute is absent,
skipping elements whose source-URL attribute is absent OR empty, and
preserving duplicates as separate entries. -/
theorem extract_images_spec (doc : Doc) : extract_images doc = specImages doc := by
  unfold extract_images specImages find_all
  rw [foldl_append_filterMap, filterMap_filter_if (isTag "img")]
  simp

/-- C1: evaluation of `_process_images` at an image list whose first
image's download fails.  `ImageContent.save` opens (creates/truncates)
the target file and then `f.write(None)` raises `TypeError`, so the whole
page-level rewrite aborts: the second image is never downloaded, and a
file was opened for the failed asset — contradicting the claim that a
failed download is skipped without throwing, writes no file, and leaves
the remaining images processed. -/
theorem process_images_crashes_on_failed_download :
    isErr (process_images "c1 https://a.com/x/i1.png mid https://a.com/x/i2.png c2"
        [img_c1a, img_c1b] "output" "images" false netFirstFails).fst = true
      ∧ (process_images "c1 https://a.com/x/i1.png mid https://a.com/x/i2.png c2"
          [img_c1a, img_c1b] "output" "images" false netFirstFails).snd
        = [NetEvent.imageReq "https://a.com/x/i1.png",
           NetEvent.fileOpen "output/images/x/i1.png"]
      ∧ NetEvent.imageReq "https://a.com/x/i2.png"
          ∉ (process_images "c1 https://a.com/x/i1.png mid https://a.com/x/i2.png c2"
              [img_c1a, img_c1b] "output" "images" false netFirstFails).snd
      ∧ NetEvent.fileOpen "output/images/x/i1.png"
          ∈ (process_images "c1 https://a.com/x/i1.png mid https://a.com/x/i2.png c2"
              [img_c1a, img_c1b] "output" "images" false netFirstFails).snd := by
  refine ⟨rfl, rfl, by decide, by decide⟩

/-- C3 counterexample: for an already-saved asset whose local path
contains the base output directory string twice
(`output/images/output/b.png` under base directory `output`), the code
removes EVERY occurrence of the base directory from the local path
(`str.replace`), producing `/images//b.png`, while the claim's
front-prefix strip produces `/images/output/b.png`. -/
theorem process_images_strip_not_prefix_cex :
    (process_images "see https://x.com/output/b.png end" [img_c3] "output" "images" false
        netAllOk).fst
      = .ok ("see /images//b.png end", [img_c3])
      ∧ claimRewrite "see https://x.com/output/b.png end" [img_c3] "output"
        = "see /images/output/b.png end"
      ∧ ("see /images//b.png end" : String) ≠ "see /images/output/b.png end" := by
  refine ⟨rfl, rfl, by decide⟩

/-- C3 amended: for every asset with a non-empty localPath set and every
content string, the rewrite step replaces every literal occurrence of the
asset's remote URL in the content (replace-all semantics, stated as
re-joining the greedy split on the URL) with the asset's localPath with
EVERY occurrence of the baseOutputDir string removed from it (literal
string removal, not a front-prefix strip). -/
theorem process_images_rewrite_all_occurrences (content : String)
    (images : List ImageContent) (path images_dir_name : String)
    (flatten_images : Bool) (net : Net) (hpath : path ≠ "")
    (h : ∀ img ∈ images, img.url ≠ "" ∧ pyFalsy img.local_path = false) :
    process_images content images path images_dir_name flatten_images net
      = (.ok (images.foldl
          (fun c img =>
            specReplaceAll img.url (specReplaceAll path "" (img.local_path.getD "")) c)
          content, images), []) := by
  unfold process_images
  rw [processLoop_all_saved _ _ _ _ images content (fun i hi => (h i hi).2)]
  have hfold : ∀ (l : List ImageContent) (c : String),
      (∀ img ∈ l, img.url ≠ "" ∧ pyFalsy img.local_path = false) →
      l.foldl (fun c img => pyReplaceStr c img.url (pyReplaceStr (img.local_path.getD "") path "")) c
        = l.foldl
            (fun c img =>
              specReplaceAll img.url (specReplaceAll path "" (img.local_path.getD "")) c) c := by
    intro l
    induction l with
    | nil => intro c _; rfl
    | cons i is ih =>
      intro c hl
      have hi := hl i (List.mem_cons_self i is)
      simp only [List.foldl_cons]
      rw [pyReplaceStr_eq_spec _ _ _ hpath, pyReplaceStr_eq_spec _ _ _ hi.1]
      exact ih _ (fun j hj => hl j (List.mem_cons_of_mem i hj))
  rw [hfold images content h]

/-- Witness for the amended C3: a content string containing the remote
URL twice has both occurrences rewritten to `/images/i.png`. -/
theorem process_images_rewrite_all_occurrences_witness :
    process_images "a https://a.com/i.png b https://a.com/i.png c" [imgSaved]
        "output" "images" false netAllOk
      = (.ok ("a /images/i.png b /images/i.png c", [imgSaved]), []) := by
  have h := process_images_rewrite_all_occurrences
    "a https://a.com/i.png b https://a.com/i.png c" [imgSaved]
    "output" "images" false netAllOk (by decide) (by decide)
  rw [h]
  rfl

/-- C8: when every asset in the list already has a (non-empty) localPath,
`_process_images` performs no download, no file open and no save — the
event list is empty — returns the asset list unchanged, and a second run
on the same input content with the returned asset list produces the very
same rewritten content with again no download or save. -/
theorem process_images_idempotent_on_saved (content : String)
    (images : List ImageContent) (path images_dir_name : String)
    (flatten_images : Bool) (net : Net)
    (h : ∀ img ∈ images, pyFalsy img.local_path = false) :
    ∃ c2 images2,
      process_images content images path images_dir_name flatten_images net
        = (.ok (c2, images2), [])
      ∧ images2 = images
      ∧ process_images content images2 path images_dir_name flatten_images net
        = (.ok (c2, images2), []) := by
  have hrun := processLoop_all_saved (ospathJoin path images_dir_name) path flatten_images net
    images content h
  exact ⟨_, images, hrun, rfl, hrun⟩

/-- Witness for C8 at a concrete already-saved asset list. -/
theorem process_images_idempotent_on_saved_witness :
    ∃ c2 images2,
      process_images "p https://a.com/i.png q" [imgSaved] "output" "images" false netAllOk
        = (.ok (c2, images2), [])
      ∧ images2 = [imgSaved]
      ∧ process_images "p https://a.com/i.png q" images2 "output" "images" false netAllOk
        = (.ok (c2, images2), []) :=
  process_images_idempotent_on_saved "p https://a.com/i.png q" [imgSaved]
    "output" "images" false netAllOk (by decide)
